import Mathlib

set_option maxRecDepth 10000

/-!
Verification of the smart-lock controller core: frame codec (uart_tlv_crc16.h),
TLV getters, credentials store (store_credentials.cpp), lock state machine
(lock_logic.cpp) and the line protocol (uart_protocol.cpp), shallowly embedded
over lists of bytes and explicit state records.  Machine integers are modelled
as Nat with explicit reduction mod 2^8 / 2^16 / 2^32 exactly where the C code
performs fixed-width arithmetic.
-/

namespace LockCore

/-- Modulus of the 32-bit millisecond counter and of uint32 arithmetic. -/
def M32 : Nat := 4294967296

/-- C unsigned 32-bit subtraction `a - b` (wraparound). -/
def sub32 (a b : Nat) : Nat := (a % M32 + (M32 - b % M32)) % M32

/-- Reinterpret a value mod 2^32 as a signed two's-complement 32-bit integer,
as the C casts `(int32_t)x` do. -/
def toI32 (x : Nat) : Int :=
  if x % M32 < 2147483648 then (x % M32 : Int) else (x % M32 : Int) - (M32 : Int)

/-- One shift-and-conditional-xor round of CRC-16/CCITT-FALSE (poly 0x1021),
in uint16 arithmetic (the inner `for b` loop of crc16_ccitt_false). -/
def crc16Round (crc : Nat) : Nat :=
  if crc &&& 0x8000 ≠ 0 then ((crc <<< 1) ^^^ 0x1021) % 65536
  else (crc <<< 1) % 65536

/-- Iterate crc16Round. -/
def crc16Rounds : Nat → Nat → Nat
  | 0, c => c
  | n + 1, c => crc16Rounds n (crc16Round c)

/-- Feed one byte into the CRC-16/CCITT-FALSE accumulator
(`crc ^= (uint16_t)data[i] << 8` followed by eight rounds). -/
def crc16Byte (crc b : Nat) : Nat := crc16Rounds 8 ((crc ^^^ ((b % 256) <<< 8)) % 65536)

/-- crc16_ccitt_false over a byte list, starting from accumulator crc. -/
def crc16 (data : List Nat) (crc : Nat) : Nat := data.foldl crc16Byte crc

theorem crc16_append (a b : List Nat) (c : Nat) :
    crc16 (a ++ b) c = crc16 b (crc16 a c) := by
  simp [crc16, List.foldl_append]

theorem crc16Round_lt (c : Nat) : crc16Round c < 65536 := by
  unfold crc16Round
  split <;> exact Nat.mod_lt _ (by norm_num)

theorem crc16Rounds_lt (n : Nat) (c : Nat) (h : c < 65536) :
    crc16Rounds n c < 65536 := by
  induction n generalizing c with
  | zero => exact h
  | succ n ih => exact ih _ (crc16Round_lt c)

theorem crc16Byte_lt (c b : Nat) : crc16Byte c b < 65536 := by
  exact crc16Rounds_lt 8 ((c ^^^ ((b % 256) <<< 8)) % 65536)
    (Nat.mod_lt _ (show 0 < 65536 by norm_num))

theorem crc16_lt_of_lt (data : List Nat) (c : Nat) (h : c < 65536) :
    crc16 data c < 65536 := by
  induction data generalizing c with
  | nil => exact h
  | cons x xs ih => exact ih (crc16Byte c x) (crc16Byte_lt c x)

theorem crc16_lt (x : Nat) (xs : List Nat) (c : Nat) :
    crc16 (x :: xs) c < 65536 :=
  crc16_lt_of_lt xs (crc16Byte c x) (crc16Byte_lt c x)

/-- A decoded UART frame (struct UartFrame). -/
structure Frame where
  version : Nat
  msgType : Nat
  length : Nat
  payload : List Nat
deriving Repr, DecidableEq

/-- uartWriteFrame: the byte sequence written to the stream for a message type
and payload, or none when the payload is rejected (then nothing is written). -/
def uartWriteFrame (msgType : Nat) (payload : List Nat) : Option (List Nat) :=
  if payload.length > 384 then none
  else
    let len := payload.length
    let hdr : List Nat := [0xA5, 0x5A, 1, msgType % 256, len &&& 0xFF, (len >>> 8) &&& 0xFF]
    let crc := crc16 payload (crc16 (hdr.drop 2) 0xFFFF)
    some (hdr ++ payload ++ [crc &&& 0xFF, (crc >>> 8) &&& 0xFF])

/-- Scan a byte list for the first adjacent pair (0xA5, 0x5A); index of the
first component when found. -/
def scanPre : List Nat → Option Nat
  | a :: b :: rest =>
    if a = 0xA5 ∧ b = 0x5A then some 0
    else (scanPre (b :: rest)).map (· + 1)
  | _ => none

/-- The resync scan of UartFrameParser::feed: first index i ≥ 1 such that
buf[i] = 0xA5 and buf[i+1] = 0x5A (with i+1 < length); 1 when there is none. -/
def findPreamble (buf : List Nat) : Nat :=
  match scanPre (buf.drop 1) with
  | some k => k + 1
  | none => 1

/-- The inner frame-extraction loop of UartFrameParser::feed.  The fuel
argument bounds the number of loop iterations; the function is always applied
with fuel = buffer length, which suffices because every iteration that does not
return drops at least one buffered byte, and with an empty buffer the loop
does nothing. -/
def parseLoopAux : Nat → List Nat → List Nat × Option Frame
  | 0, buf => (buf, none)
  | fuel + 1, buf =>
    if buf.length < 6 then (buf, none)
    else if ¬(buf.getD 0 0 = 0xA5 ∧ buf.getD 1 0 = 0x5A) then
      parseLoopAux fuel (buf.drop (findPreamble buf))
    else
      let plen := buf.getD 4 0 ||| (buf.getD 5 0 <<< 8)
      let total := 8 + plen
      if buf.length < total then (buf, none)
      else
        let rxCrc := buf.getD (total - 2) 0 ||| (buf.getD (total - 1) 0 <<< 8)
        let calcCrc := crc16 ((buf.drop 2).take (4 + plen)) 0xFFFF
        if rxCrc ≠ calcCrc then parseLoopAux fuel (buf.drop 2)
        else if plen > 384 then (buf.drop total, none)
        else (buf.drop total, some ⟨buf.getD 2 0, buf.getD 3 0, plen, (buf.drop 6).take plen⟩)

/-- One pass of the parse loop over the current buffer. -/
def parseLoop (buf : List Nat) : List Nat × Option Frame := parseLoopAux buf.length buf

/-- Feed a single stream byte into the parser: reset the buffer when full,
append the byte, then run the parse loop (the body of the read loop in feed). -/
def feedByte (buf : List Nat) (b : Nat) : List Nat × Option Frame :=
  let buf1 := if 512 ≤ buf.length then [] else buf
  parseLoop (buf1 ++ [b % 256])

/-- Feed a whole byte sequence, collecting every frame delivered along the way
(this models repeated calls to feed until the stream is drained). -/
def feedBytes (buf : List Nat) (bs : List Nat) : List Nat × List Frame :=
  match bs with
  | [] => (buf, [])
  | b :: rest =>
    let r1 := feedByte buf b
    let r2 := feedBytes r1.1 rest
    (r2.1, match r1.2 with | some fr => fr :: r2.2 | none => r2.2)

/-- Recombine a low byte with a shifted high byte, as the frame parser does
when reading the little-endian length and CRC fields. -/
theorem lor_lo_hi (n : Nat) : n % 256 ||| ((n / 256) <<< 8) = n := by
  have hb : n % 256 < 2 ^ 8 := by
    have := Nat.mod_lt n (show 0 < 256 by norm_num)
    omega
  have h1 := Nat.mul_add_lt_is_or hb (n / 256)
  rw [Nat.shiftLeft_eq, Nat.lor_comm]
  rw [show (n / 256) * 2 ^ 8 = 2 ^ 8 * (n / 256) by ring]
  rw [← h1]
  omega

/-- Little-endian value of a byte list (the `v |= p[i+b] << 8b` accumulation
of tlvGetU64). -/
def leBytes : List Nat → Nat
  | [] => 0
  | b :: rest => b + 256 * leBytes rest

/-- tlvGetU8: linear scan for the first record with the given tag and length 1.
Fuel bounds the iterations; the wrappers pass fuel = list length, which
suffices because every iteration consumes at least two bytes. -/
def tlvGetU8Aux : Nat → List Nat → Nat → Option Nat
  | fuel + 1, t :: l :: rest, tag =>
    if rest.length < l then none
    else if t = tag ∧ l = 1 then some (rest.getD 0 0)
    else tlvGetU8Aux fuel (rest.drop l) tag
  | _, _, _ => none

def tlvGetU8 (p : List Nat) (tag : Nat) : Option Nat := tlvGetU8Aux p.length p tag

/-- tlvGetU64: linear scan for the first record with the given tag and
length 8; the value is decoded little-endian. -/
def tlvGetU64Aux : Nat → List Nat → Nat → Option Nat
  | fuel + 1, t :: l :: rest, tag =>
    if rest.length < l then none
    else if t = tag ∧ l = 8 then some (leBytes (rest.take 8))
    else tlvGetU64Aux fuel (rest.drop l) tag
  | _, _, _ => none

def tlvGetU64 (p : List Nat) (tag : Nat) : Option Nat := tlvGetU64Aux p.length p tag

/-- tlvGetStr: linear scan for the first record with the given tag, any
length; returns the raw value bytes (the C code converts them to chars). -/
def tlvGetStrAux : Nat → List Nat → Nat → Option (List Nat)
  | fuel + 1, t :: l :: rest, tag =>
    if rest.length < l then none
    else if t = tag then some (rest.take l)
    else tlvGetStrAux fuel (rest.drop l) tag
  | _, _, _ => none

def tlvGetStr (p : List Nat) (tag : Nat) : Option (List Nat) := tlvGetStrAux p.length p tag

/-- Follows the spec data model of a TLV buffer: the sequence of (tag, length,
value) records read in order, terminated early at a malformed record whose
declared length exceeds the remaining buffer (such a record contributes
nothing). -/
def specTlvRecordsAux : Nat → List Nat → List (Nat × Nat × List Nat)
  | fuel + 1, t :: l :: rest =>
    if rest.length < l then []
    else (t, l, rest.take l) :: specTlvRecordsAux fuel (rest.drop l)
  | _, _ => []

/-- The record sequence of a TLV buffer, per the spec data model. -/
def specTlvRecords (p : List Nat) : List (Nat × Nat × List Nat) :=
  specTlvRecordsAux p.length p

theorem tlvGetU8Aux_spec (fuel : Nat) (p : List Nat) (tag : Nat) :
    tlvGetU8Aux fuel p tag =
      ((specTlvRecordsAux fuel p).find? (fun r => r.1 == tag && r.2.1 == 1)).map
        (fun r => r.2.2.getD 0 0) := by
  induction fuel generalizing p with
  | zero => cases p with
    | nil => rfl
    | cons a q => cases q <;> rfl
  | succ fuel ih =>
    match p with
    | [] => rfl
    | [t] => rfl
    | t :: l :: rest =>
      simp only [tlvGetU8Aux, specTlvRecordsAux]
      split
      · rfl
      · rename_i hlen
        by_cases hm : t = tag ∧ l = 1
        · obtain ⟨ht, hl⟩ := hm
          subst ht hl
          simp [List.find?, List.getD]
        · rw [if_neg hm]
          rw [ih]
          have : ((t, l, rest.take l).1 == tag && (t, l, rest.take l).2.1 == 1) = false := by
            simp only [beq_iff_eq, Bool.and_eq_false_iff, beq_eq_false_iff_ne, ne_eq]
            by_cases h1 : t = tag
            · right; intro h2; exact hm ⟨h1, h2⟩
            · left; exact h1
          simp [List.find?, this]

theorem tlvGetU64Aux_spec (fuel : Nat) (p : List Nat) (tag : Nat) :
    tlvGetU64Aux fuel p tag =
      ((specTlvRecordsAux fuel p).find? (fun r => r.1 == tag && r.2.1 == 8)).map
        (fun r => leBytes r.2.2) := by
  induction fuel generalizing p with
  | zero => cases p with
    | nil => rfl
    | cons a q => cases q <;> rfl
  | succ fuel ih =>
    match p with
    | [] => rfl
    | [t] => rfl
    | t :: l :: rest =>
      simp only [tlvGetU64Aux, specTlvRecordsAux]
      split
      · rfl
      · rename_i hlen
        by_cases hm : t = tag ∧ l = 8
        · obtain ⟨ht, hl⟩ := hm
          subst ht hl
          simp [List.find?]
        · rw [if_neg hm]
          rw [ih]
          have : ((t, l, rest.take l).1 == tag && (t, l, rest.take l).2.1 == 8) = false := by
            simp only [beq_iff_eq, Bool.and_eq_false_iff, beq_eq_false_iff_ne, ne_eq]
            by_cases h1 : t = tag
            · right; intro h2; exact hm ⟨h1, h2⟩
            · left; exact h1
          simp [List.find?, this]

theorem tlvGetStrAux_spec (fuel : Nat) (p : List Nat) (tag : Nat) :
    tlvGetStrAux fuel p tag =
      ((specTlvRecordsAux fuel p).find? (fun r => r.1 == tag)).map
        (fun r => r.2.2) := by
  induction fuel generalizing p with
  | zero => cases p with
    | nil => rfl
    | cons a q => cases q <;> rfl
  | succ fuel ih =>
    match p with
    | [] => rfl
    | [t] => rfl
    | t :: l :: rest =>
      simp only [tlvGetStrAux, specTlvRecordsAux]
      split
      · rfl
      · rename_i hlen
        by_cases hm : t = tag
        · subst hm
          simp [List.find?]
        · rw [if_neg hm]
          rw [ih]
          have hb : (t == tag) = false := by simp [hm]
          simp [List.find?, hb]

/-- C7: the TLV getters return the value of the first record, in sequential
order, whose tag matches and whose length is consistent (exactly 1 for getU8,
exactly 8 for getU64, any length for getStr); a malformed record whose
declared length exceeds the remaining buffer terminates the record sequence,
so nothing at or beyond it is ever returned and the result is not-found. -/
theorem c7_tlv_first_match (p : List Nat) (tag : Nat) :
    tlvGetU8 p tag =
      ((specTlvRecords p).find? (fun r => r.1 == tag && r.2.1 == 1)).map
        (fun r => r.2.2.getD 0 0) ∧
    tlvGetU64 p tag =
      ((specTlvRecords p).find? (fun r => r.1 == tag && r.2.1 == 8)).map
        (fun r => leBytes r.2.2) ∧
    tlvGetStr p tag =
      ((specTlvRecords p).find? (fun r => r.1 == tag)).map (fun r => r.2.2) :=
  ⟨tlvGetU8Aux_spec p.length p tag, tlvGetU64Aux_spec p.length p tag,
    tlvGetStrAux_spec p.length p tag⟩

/-- The CRC16 of a frame with version v, message type t and payload p --
crc16_ccitt_false over version, msgType, little-endian length, payload. -/
def frameCrc (v t : Nat) (p : List Nat) : Nat :=
  crc16 (v :: t :: p.length % 256 :: p.length / 256 % 256 :: p) 0xFFFF

/-- The full wire image of a frame: preamble, version, msgType, little-endian
length, payload, little-endian CRC16. -/
def frameBytes (v t : Nat) (p : List Nat) : List Nat :=
  0xA5 :: 0x5A :: v :: t :: p.length % 256 :: p.length / 256 % 256 ::
    (p ++ [frameCrc v t p % 256, frameCrc v t p / 256 % 256])

theorem frameBytes_length (v t : Nat) (p : List Nat) :
    (frameBytes v t p).length = p.length + 8 := by
  simp [frameBytes]

theorem frameCrc_lt (v t : Nat) (p : List Nat) : frameCrc v t p < 65536 :=
  crc16_lt _ _ _

/-- A complete buffered frame parses in one pass of the loop: the buffer is
fully consumed and the frame fields are delivered unchanged. -/
theorem parse_full (v t : Nat) (p : List Nat) (hn : p.length ≤ 384) (fuel : Nat) :
    parseLoopAux (fuel + 1) (frameBytes v t p) =
      ([], some ⟨v, t, p.length, p⟩) := by
  have hlen := frameBytes_length v t p
  have hF6 : frameBytes v t p =
      [0xA5, 0x5A, v, t, p.length % 256, p.length / 256 % 256] ++
        (p ++ [frameCrc v t p % 256, frameCrc v t p / 256 % 256]) := rfl
  have g4 : (frameBytes v t p).getD 4 0 = p.length % 256 := rfl
  have g5 : (frameBytes v t p).getD 5 0 = p.length / 256 % 256 := rfl
  have g2 : (frameBytes v t p).getD 2 0 = v := rfl
  have g3 : (frameBytes v t p).getD 3 0 = t := rfl
  have hdivlt : p.length / 256 < 256 := by omega
  have hplen : p.length % 256 ||| (p.length / 256 % 256) <<< 8 = p.length := by
    rw [Nat.mod_eq_of_lt hdivlt]
    exact lor_lo_hi p.length
  have hclt := frameCrc_lt v t p
  have hcdiv : frameCrc v t p / 256 < 256 := by omega
  have gc0 : (frameBytes v t p).getD (p.length + 6) 0 = frameCrc v t p % 256 := by
    rw [hF6, List.getD_append_right _ _ _ _ (by simp)]
    have h1 : p.length + 6 -
        [0xA5, 0x5A, v, t, p.length % 256, p.length / 256 % 256].length = p.length := by
      simp
    rw [h1, List.getD_append_right _ _ _ _ (Nat.le_refl _)]
    simp
  have gc1 : (frameBytes v t p).getD (p.length + 7) 0 = frameCrc v t p / 256 % 256 := by
    rw [hF6, List.getD_append_right _ _ _ _ (by simp)]
    have h1 : p.length + 7 -
        [0xA5, 0x5A, v, t, p.length % 256, p.length / 256 % 256].length
        = p.length + 1 := by
      simp
    rw [h1, List.getD_append_right _ _ _ _ (by omega)]
    have h2 : p.length + 1 - p.length = 1 := by omega
    rw [h2]
    rfl
  have hrx : frameCrc v t p % 256 ||| (frameCrc v t p / 256 % 256) <<< 8 =
      frameCrc v t p := by
    rw [Nat.mod_eq_of_lt hcdiv]
    exact lor_lo_hi _
  have hdrop2 : (frameBytes v t p).drop 2 =
      v :: t :: p.length % 256 :: p.length / 256 % 256 ::
        (p ++ [frameCrc v t p % 256, frameCrc v t p / 256 % 256]) := rfl
  have htake : ((frameBytes v t p).drop 2).take (4 + p.length) =
      v :: t :: p.length % 256 :: p.length / 256 % 256 :: p := by
    rw [hdrop2]
    have h4 : 4 + p.length = (((p.length + 1) + 1) + 1) + 1 := by omega
    rw [h4]
    simp only [List.take_succ_cons]
    rw [List.take_left]
  have hcalc : crc16 (((frameBytes v t p).drop 2).take (4 + p.length)) 0xFFFF =
      frameCrc v t p := by
    rw [htake]; rfl
  have hdropT : (frameBytes v t p).drop (8 + p.length) = [] := by
    apply List.drop_eq_nil_of_le
    omega
  have hdrop6 : (frameBytes v t p).drop 6 =
      p ++ [frameCrc v t p % 256, frameCrc v t p / 256 % 256] := rfl
  have hpay : ((frameBytes v t p).drop 6).take p.length = p := by
    rw [hdrop6, List.take_left]
  simp only [parseLoopAux]
  rw [if_neg (by omega)]
  rw [if_neg (not_not_intro ⟨rfl, rfl⟩)]
  simp only [g2, g3, g4, g5, hplen]
  rw [if_neg (by omega)]
  have hi0 : 8 + p.length - 2 = p.length + 6 := by omega
  have hi1 : 8 + p.length - 1 = p.length + 7 := by omega
  simp only [hi0, hi1, gc0, gc1, hrx, hcalc]
  rw [if_neg (not_not_intro rfl)]
  rw [if_neg (by omega)]
  rw [hdropT, hpay]

/-- A proper prefix of a frame never parses: the loop waits for more bytes. -/
theorem parse_prefix (v t : Nat) (p : List Nat) (hn : p.length ≤ 384)
    (fuel k : Nat) (hk : k < 8 + p.length) :
    parseLoopAux fuel ((frameBytes v t p).take k) =
      ((frameBytes v t p).take k, none) := by
  have hlen := frameBytes_length v t p
  have hlen2 : ((frameBytes v t p).take k).length = k := by
    rw [List.length_take]
    omega
  cases fuel with
  | zero => rfl
  | succ fuel =>
    by_cases h6 : k < 6
    · simp only [parseLoopAux]
      rw [if_pos (by omega)]
    · have hgt : ∀ i, i < k → ((frameBytes v t p).take k).getD i 0 =
          (frameBytes v t p).getD i 0 := by
        intro i hi
        simp [List.getD, List.getElem?_take, hi]
      simp only [parseLoopAux]
      rw [if_neg (by omega)]
      rw [if_neg (not_not_intro ⟨by rw [hgt 0 (by omega)]; rfl,
        by rw [hgt 1 (by omega)]; rfl⟩)]
      have g4 : ((frameBytes v t p).take k).getD 4 0 = p.length % 256 := by
        rw [hgt 4 (by omega)]; rfl
      have g5 : ((frameBytes v t p).take k).getD 5 0 = p.length / 256 % 256 := by
        rw [hgt 5 (by omega)]; rfl
      have hdivlt : p.length / 256 < 256 := by omega
      have hplen : p.length % 256 ||| (p.length / 256 % 256) <<< 8 = p.length := by
        rw [Nat.mod_eq_of_lt hdivlt]
        exact lor_lo_hi p.length
      simp only [g4, g5, hplen]
      rw [if_pos (by omega)]

/-- Every byte of a frame image is a byte value. -/
theorem frameBytes_getD_lt (v t : Nat) (p : List Nat)
    (hv : v < 256) (ht : t < 256) (hp : ∀ b ∈ p, b < 256) :
    ∀ j, (frameBytes v t p).getD j 0 < 256 := by
  intro j
  have hmem : ∀ x ∈ frameBytes v t p, x < 256 := by
    simp only [frameBytes, List.mem_cons, List.mem_append, List.mem_singleton]
    intro x hx
    rcases hx with h | h | h | h | h | h | h | h | h | h <;>
      first
      | exact hp x h
      | exact absurd h (List.not_mem_nil x)
      | omega
  by_cases hj : j < (frameBytes v t p).length
  · rw [List.getD_eq_getElem _ _ hj]
    exact hmem _ (List.getElem_mem hj)
  · rw [List.getD_eq_default _ _ (by omega)]
    norm_num

/-- Feeding the remaining bytes of a frame whose first j bytes are already
buffered delivers exactly that frame and empties the buffer. -/
theorem feed_tail (v t : Nat) (p : List Nat)
    (hv : v < 256) (ht : t < 256) (hp : ∀ b ∈ p, b < 256) (hn : p.length ≤ 384) :
    ∀ d j, (frameBytes v t p).length - j = d + 1 → j < (frameBytes v t p).length →
      feedBytes ((frameBytes v t p).take j) ((frameBytes v t p).drop j) =
        ([], [⟨v, t, p.length, p⟩]) := by
  have hlen := frameBytes_length v t p
  intro d
  induction d with
  | zero =>
    intro j hd hj
    have hjL : j + 1 = (frameBytes v t p).length := by omega
    rw [List.drop_eq_getElem_cons hj]
    simp only [feedBytes]
    have hstep : feedByte ((frameBytes v t p).take j) ((frameBytes v t p)[j]) =
        ([], some ⟨v, t, p.length, p⟩) := by
      unfold feedByte
      rw [if_neg (by rw [List.length_take]; omega)]
      have hb : (frameBytes v t p)[j] % 256 = (frameBytes v t p)[j] := by
        apply Nat.mod_eq_of_lt
        have := frameBytes_getD_lt v t p hv ht hp j
        rwa [List.getD_eq_getElem _ _ hj] at this
      have hcat : (frameBytes v t p).take j ++ [(frameBytes v t p)[j]] =
          (frameBytes v t p).take (j + 1) := by
        rw [List.take_succ]
        simp [List.getElem?_eq_getElem hj]
      show parseLoop ((frameBytes v t p).take j ++ [(frameBytes v t p)[j] % 256]) = _
      rw [hb, hcat, hjL, List.take_length]
      unfold parseLoop
      rw [hlen]
      have : p.length + 8 = (p.length + 7) + 1 := by omega
      rw [this]
      exact parse_full v t p hn _
    rw [hstep]
    have hrest : (frameBytes v t p).drop (j + 1) = [] := by
      apply List.drop_eq_nil_of_le
      omega
    rw [hrest]
    rfl
  | succ d ih =>
    intro j hd hj
    rw [List.drop_eq_getElem_cons hj]
    simp only [feedBytes]
    have hstep : feedByte ((frameBytes v t p).take j) ((frameBytes v t p)[j]) =
        ((frameBytes v t p).take (j + 1), none) := by
      unfold feedByte
      rw [if_neg (by rw [List.length_take]; omega)]
      have hb : (frameBytes v t p)[j] % 256 = (frameBytes v t p)[j] := by
        apply Nat.mod_eq_of_lt
        have := frameBytes_getD_lt v t p hv ht hp j
        rwa [List.getD_eq_getElem _ _ hj] at this
      have hcat : (frameBytes v t p).take j ++ [(frameBytes v t p)[j]] =
          (frameBytes v t p).take (j + 1) := by
        rw [List.take_succ]
        simp [List.getElem?_eq_getElem hj]
      show parseLoop ((frameBytes v t p).take j ++ [(frameBytes v t p)[j] % 256]) = _
      rw [hb, hcat]
      unfold parseLoop
      exact parse_prefix v t p hn _ _ (by omega)
    rw [hstep]
    have := ih (j + 1) (by omega) (by omega)
    rw [this]

/-- Feeding the full wire image of a well-formed frame into a fresh parser
delivers exactly that frame. -/
theorem feed_frame (v t : Nat) (p : List Nat)
    (hv : v < 256) (ht : t < 256) (hp : ∀ b ∈ p, b < 256) (hn : p.length ≤ 384) :
    feedBytes [] (frameBytes v t p) = ([], [⟨v, t, p.length, p⟩]) := by
  have hlen := frameBytes_length v t p
  have := feed_tail v t p hv ht hp hn (p.length + 7) 0 (by omega) (by omega)
  simpa using this

theorem and_255_eq_mod (x : Nat) : x &&& 0xFF = x % 256 := by
  have h := Nat.and_pow_two_sub_one_eq_mod x 8
  norm_num at h
  exact h

theorem shiftRight8_eq_div (x : Nat) : x >>> 8 = x / 256 := by
  rw [Nat.shiftRight_eq_div_pow]

/-- The writer emits exactly the wire image frameBytes with version 1. -/
theorem uartWriteFrame_eq (t : Nat) (p : List Nat) (ht : t < 256)
    (hn : p.length ≤ 384) :
    uartWriteFrame t p = some (frameBytes 1 t p) := by
  unfold uartWriteFrame
  rw [if_neg (by omega)]
  have hmod : t % 256 = t := Nat.mod_eq_of_lt ht
  have hcrc2 : crc16 p (crc16 [1, t, p.length % 256, p.length / 256 % 256] 0xFFFF)
      = frameCrc 1 t p := by
    rw [← crc16_append]
    rfl
  simp only [hmod, and_255_eq_mod, shiftRight8_eq_div, List.drop_succ_cons,
    List.drop_zero, hcrc2]
  unfold frameBytes
  simp

/-- C3: for every message type T and payload P of at most 384 bytes, the byte
sequence emitted by uartWriteFrame for (T, P) is the frame image, and feeding
it into a fresh parser delivers exactly one frame with version 1, msgType T
and payload P; for every payload longer than 384 bytes the writer rejects the
request and writes nothing (returns none). -/
theorem c3_frame_roundtrip (t : Nat) (p : List Nat)
    (ht : t < 256) (hp : ∀ b ∈ p, b < 256) :
    (p.length ≤ 384 →
      uartWriteFrame t p = some (frameBytes 1 t p) ∧
      feedBytes [] (frameBytes 1 t p) = ([], [⟨1, t, p.length, p⟩])) ∧
    (384 < p.length → uartWriteFrame t p = none) := by
  constructor
  · intro hn
    exact ⟨uartWriteFrame_eq t p ht hn, feed_frame 1 t p (by norm_num) ht hp hn⟩
  · intro hn
    unfold uartWriteFrame
    rw [if_pos (by omega)]

theorem c3_frame_roundtrip_witness :
    (7 < 256 ∧ (∀ b ∈ [1, 2, 254], b < 256) ∧ [1, 2, 254].length ≤ 384 ∧
      384 < (List.replicate 385 0).length) ∧
    (uartWriteFrame 7 [1, 2, 254] = some (frameBytes 1 7 [1, 2, 254]) ∧
      feedBytes [] (frameBytes 1 7 [1, 2, 254]) = ([], [⟨1, 7, 3, [1, 2, 254]⟩])) ∧
    uartWriteFrame 7 (List.replicate 385 0) = none := by
  refine ⟨⟨by norm_num, by decide, by decide, by simp⟩, ?_, ?_⟩
  · exact (c3_frame_roundtrip 7 [1, 2, 254] (by norm_num) (by decide)).1 (by decide)
  · exact (c3_frame_roundtrip 7 (List.replicate 385 0) (by norm_num)
      (by intro b hb; rw [List.eq_of_mem_replicate hb]; norm_num)).2 (by simp)

/-- C10: the parser never validates the version field.  For every frame image
with correct preamble and correct CRC16 and an arbitrary version byte v
(frameBytes computes the CRC over version, msgType, length and payload, so
its image is CRC-correct by construction), feed accepts the frame and
delivers it with version field v. -/
theorem c10_version_unchecked (v t : Nat) (p : List Nat)
    (hv : v < 256) (ht : t < 256) (hp : ∀ b ∈ p, b < 256) (hn : p.length ≤ 384) :
    feedBytes [] (frameBytes v t p) = ([], [⟨v, t, p.length, p⟩]) :=
  feed_frame v t p hv ht hp hn

theorem c10_version_unchecked_witness :
    (2 < 256 ∧ 9 < 256 ∧ (∀ b ∈ [17], b < 256) ∧ [17].length ≤ 384) ∧
    feedBytes [] (frameBytes 2 9 [17]) = ([], [⟨2, 9, 1, [17]⟩]) :=
  ⟨⟨by norm_num, by norm_num, by decide, by decide⟩,
    c10_version_unchecked 2 9 [17] (by norm_num) (by norm_num) (by decide) (by decide)⟩

theorem getD_drop_one (l : List Nat) (i : Nat) :
    (l.drop 1).getD i 0 = l.getD (i + 1) 0 := by
  simp [List.getD, List.getElem?_drop, Nat.add_comm]

theorem scanPre_eq_none (l : List Nat)
    (h : ∀ i, i + 1 < l.length → ¬(l.getD i 0 = 0xA5 ∧ l.getD (i + 1) 0 = 0x5A)) :
    scanPre l = none := by
  induction l with
  | nil => rfl
  | cons a q ih =>
    cases q with
    | nil => rfl
    | cons b r =>
      simp only [scanPre]
      rw [if_neg (show ¬(a = 0xA5 ∧ b = 0x5A) from h 0 (by simp))]
      rw [ih (by
        intro i hi
        exact h (i + 1) (by simp at hi ⊢; omega))]
      rfl

theorem findPreamble_eq_one (buf : List Nat)
    (h : ∀ i, i + 1 < buf.length → ¬(buf.getD i 0 = 0xA5 ∧ buf.getD (i + 1) 0 = 0x5A)) :
    findPreamble buf = 1 := by
  unfold findPreamble
  rw [scanPre_eq_none]
  intro i hi
  rw [getD_drop_one, getD_drop_one]
  apply h
  rw [List.length_drop] at hi
  omega

theorem parseLoopAux_no_preamble (fuel : Nat) :
    ∀ buf : List Nat, buf.length ≤ fuel →
      (∀ i, i + 1 < buf.length → ¬(buf.getD i 0 = 0xA5 ∧ buf.getD (i + 1) 0 = 0x5A)) →
      parseLoopAux fuel buf = (buf.drop (buf.length - 5), none) := by
  induction fuel with
  | zero =>
    intro buf hf hnp
    have hb : buf = [] := List.eq_nil_of_length_eq_zero (by omega)
    subst hb
    rfl
  | succ fuel ih =>
    intro buf hf hnp
    by_cases h6 : buf.length < 6
    · simp only [parseLoopAux]
      rw [if_pos h6]
      have h0 : buf.length - 5 = 0 := by omega
      rw [h0, List.drop_zero]
    · simp only [parseLoopAux]
      rw [if_neg (by omega)]
      rw [if_pos (hnp 0 (by omega))]
      rw [findPreamble_eq_one buf hnp]
      have hshift : ∀ i, i + 1 < (buf.drop 1).length →
          ¬((buf.drop 1).getD i 0 = 0xA5 ∧ (buf.drop 1).getD (i + 1) 0 = 0x5A) := by
        intro i hi
        rw [getD_drop_one, getD_drop_one]
        apply hnp
        rw [List.length_drop] at hi
        omega
      rw [ih (buf.drop 1) (by rw [List.length_drop]; omega) hshift]
      rw [List.drop_drop, List.length_drop]
      have : 1 + (buf.length - 1 - 5) = buf.length - 5 := by omega
      rw [this]

/-- C8 as stated is false: after six non-preamble bytes the parser keeps the
last five buffered bytes, not just the last one. -/
theorem c8_counterexample :
    (feedBytes [] [1, 2, 3, 4, 5, 6]).1 = [2, 3, 4, 5, 6] ∧
    (feedBytes [] [1, 2, 3, 4, 5, 6]).1 ≠ [6] := by decide

/-- C8 amended: when the buffer holds at least 6 bytes and no occurrence of
the preamble pair (0xA5, 0x5A) exists anywhere in it (in particular its first
two bytes are not the preamble), the parse loop repeatedly discards the single
first byte until fewer than 6 bytes remain, so it retains the last 5 buffered
bytes (a preamble split across reads is still preserved). -/
theorem c8_resync_amended (buf : List Nat) (h6 : 6 ≤ buf.length)
    (hnp : ∀ i, i + 1 < buf.length → ¬(buf.getD i 0 = 0xA5 ∧ buf.getD (i + 1) 0 = 0x5A)) :
    parseLoop buf = (buf.drop (buf.length - 5), none) :=
  parseLoopAux_no_preamble buf.length buf (Nat.le_refl _) hnp

theorem c8_resync_amended_witness :
    (6 ≤ ([1, 2, 3, 4, 5, 6] : List Nat).length ∧
      (∀ i, i + 1 < ([1, 2, 3, 4, 5, 6] : List Nat).length →
        ¬(([1, 2, 3, 4, 5, 6] : List Nat).getD i 0 = 0xA5 ∧
          ([1, 2, 3, 4, 5, 6] : List Nat).getD (i + 1) 0 = 0x5A))) ∧
    parseLoop [1, 2, 3, 4, 5, 6] = ([2, 3, 4, 5, 6], none) := by
  have hnp : ∀ i, i + 1 < ([1, 2, 3, 4, 5, 6] : List Nat).length →
      ¬(([1, 2, 3, 4, 5, 6] : List Nat).getD i 0 = 0xA5 ∧
        ([1, 2, 3, 4, 5, 6] : List Nat).getD (i + 1) 0 = 0x5A) := by
    intro i hi
    have h5 : i < 5 := by
      simp only [List.length_cons, List.length_nil] at hi
      omega
    interval_cases i <;> decide
  exact ⟨⟨by decide, hnp⟩, c8_resync_amended [1, 2, 3, 4, 5, 6] (by decide) hnp⟩

namespace CredentialsStore

/-- One round of the bitwise CRC32 update (poly 0xEDB88320), uint32
arithmetic; the mask models the unsigned negation `-(c & 1u)`. -/
def crc32Round (c : Nat) : Nat :=
  (c >>> 1) ^^^ (0xEDB88320 &&& (if c &&& 1 ≠ 0 then 0xFFFFFFFF else 0))

def crc32Rounds : Nat → Nat → Nat
  | 0, c => c
  | n + 1, c => crc32Rounds n (crc32Round c)

/-- Feed one byte into the CRC32 accumulator (CredentialsStore::crc32 body). -/
def crc32Byte (c b : Nat) : Nat := crc32Rounds 8 ((c % M32) ^^^ (b % 256))

/-- CredentialsStore::crc32 over a byte list (init 0xFFFFFFFF, final
complement). -/
def crc32 (data : List Nat) : Nat :=
  (data.foldl crc32Byte 0xFFFFFFFF) ^^^ 0xFFFFFFFF

def kMagic : Nat := 0x534C4B31

def kVersion : Nat := 1

/-- struct PinSlot: validity flag, digit count, 9-byte character array. -/
structure PinSlot where
  valid : Nat
  len : Nat
  pin : List Char
deriving Repr, DecidableEq

/-- struct RfidSlot: validity flag, UID length, 10-byte UID array. -/
structure RfidSlot where
  valid : Nat
  len : Nat
  uid : List Nat
deriving Repr, DecidableEq

/-- struct StoreV1, the persisted image. -/
structure StoreV1 where
  magic : Nat
  version : Nat
  reserved : Nat
  pins : List PinSlot
  rfids : List RfidSlot
  master : PinSlot
  crc32 : Nat
deriving Repr, DecidableEq

def emptyPinSlot : PinSlot := ⟨0, 0, List.replicate 9 (Char.ofNat 0)⟩

def emptyRfidSlot : RfidSlot := ⟨0, 0, List.replicate 10 0⟩

/-- CredentialsStore::clearAll: the all-zero image with magic and version
restored. -/
def clearAll : StoreV1 :=
  ⟨kMagic, kVersion, 0, List.replicate 10 emptyPinSlot,
    List.replicate 10 emptyRfidSlot, emptyPinSlot, 0⟩

def le16 (x : Nat) : List Nat := [x % 256, x / 256 % 256]

def le32 (x : Nat) : List Nat :=
  [x % 256, x / 256 % 256, x / 65536 % 256, x / 16777216 % 256]

def pinSlotBytes (p : PinSlot) : List Nat :=
  p.valid % 256 :: p.len % 256 ::
    (List.range 9).map (fun j => (p.pin.getD j (Char.ofNat 0)).toNat % 256)

def rfidSlotBytes (r : RfidSlot) : List Nat :=
  r.valid % 256 :: r.len % 256 :: (List.range 10).map (fun j => r.uid.getD j 0 % 256)

/-- The raw byte image of StoreV1 as laid out in EEPROM on the target: the
fields in declaration order, packed, with three alignment padding bytes before
the trailing uint32 crc32 field. -/
def storeBytes (d : StoreV1) : List Nat :=
  le32 d.magic ++ le16 d.version ++ le16 d.reserved ++
    ((List.range 10).map (fun i => pinSlotBytes (d.pins.getD i emptyPinSlot))).flatten ++
    ((List.range 10).map (fun i => rfidSlotBytes (d.rfids.getD i emptyRfidSlot))).flatten ++
    pinSlotBytes d.master ++ [0, 0, 0] ++ le32 d.crc32

/-- CRC32 of an image with its crc32 field zeroed, as both load() and save()
compute it. -/
def imageCrc (d : StoreV1) : Nat := crc32 (storeBytes {d with crc32 := 0})

/-- The store's full state: the in-memory image `_data` and the persisted
EEPROM image. -/
structure State where
  mem : StoreV1
  ee : StoreV1
deriving Repr, DecidableEq

/-- CredentialsStore::save: stamp the CRC of the in-memory image into its
crc32 field and write it to EEPROM (EEPROM.commit is modelled as
succeeding). -/
def save (s : State) : Bool × State :=
  let c := imageCrc s.mem
  let m := {s.mem with crc32 := c}
  (true, ⟨m, m⟩)

/-- CredentialsStore::load: read the EEPROM image into memory; on magic,
version or CRC mismatch reset to the default image, persist it and report
failure; otherwise keep the loaded image and report success. -/
def load (s : State) : Bool × State :=
  let d := s.ee
  if ¬(d.magic = kMagic ∧ d.version = kVersion) then
    (false, (save ⟨clearAll, s.ee⟩).2)
  else if imageCrc d ≠ d.crc32 then
    (false, (save ⟨clearAll, s.ee⟩).2)
  else (true, ⟨d, s.ee⟩)

/-- CredentialsStore::normalizePin: 1..8 characters, all decimal digits. -/
def normalizePin (s : List Char) : Option (List Char) :=
  if s.length = 0 ∨ 8 < s.length then none
  else if s.all (fun c => decide ('0' ≤ c) && decide (c ≤ '9')) then some s
  else none

/-- Pad a normalized PIN into the 9-byte char array (memset 0 + memcpy). -/
def padPin (buf : List Char) : List Char :=
  (List.range 9).map (fun j => buf.getD j (Char.ofNat 0))

/-- Pad a UID into the 10-byte array (memset 0 + memcpy). -/
def padUid (uid : List Nat) : List Nat :=
  (List.range 10).map (fun j => uid.getD j 0)

def setPin (s : State) (slot : Nat) (pin : List Char) : Bool × State :=
  if ¬ slot < 10 then (false, s)
  else
    match normalizePin pin with
    | none => (false, s)
    | some buf =>
      save ⟨{s.mem with pins := s.mem.pins.set slot ⟨1, buf.length, padPin buf⟩}, s.ee⟩

def deletePin (s : State) (slot : Nat) : Bool × State :=
  if ¬ slot < 10 then (false, s)
  else save ⟨{s.mem with pins := s.mem.pins.set slot emptyPinSlot}, s.ee⟩

def setMaster (s : State) (pin : List Char) : Bool × State :=
  if pin.length = 0 then save ⟨{s.mem with master := emptyPinSlot}, s.ee⟩
  else
    match normalizePin pin with
    | none => (false, s)
    | some buf => save ⟨{s.mem with master := ⟨1, buf.length, padPin buf⟩}, s.ee⟩

def setRfid (s : State) (slot : Nat) (uid : List Nat) : Bool × State :=
  if ¬ slot < 10 then (false, s)
  else if uid.length = 0 ∨ 10 < uid.length then (false, s)
  else save ⟨{s.mem with rfids := s.mem.rfids.set slot ⟨1, uid.length, padUid uid⟩}, s.ee⟩

def deleteRfid (s : State) (slot : Nat) : Bool × State :=
  if ¬ slot < 10 then (false, s)
  else save ⟨{s.mem with rfids := s.mem.rfids.set slot emptyRfidSlot}, s.ee⟩

/-- CredentialsStore::validatePin: master credential first, then slots 0..9 in
ascending order; result is (matched, matchedSlot, isMaster). -/
def validatePin (d : StoreV1) (pin : List Char) : Bool × Int × Bool :=
  match normalizePin pin with
  | none => (false, -1, false)
  | some buf =>
    if d.master.valid ≠ 0 ∧ d.master.len = buf.length ∧
        d.master.pin.take buf.length = buf then
      (true, -1, true)
    else
      match (List.range 10).find? (fun i =>
        let p := d.pins.getD i emptyPinSlot
        decide (p.valid ≠ 0) && (p.len == buf.length) &&
          decide (p.pin.take buf.length = buf)) with
      | some i => (true, (i : Int), false)
      | none => (false, -1, false)

/-- CredentialsStore::validateRfid: slots 0..9 in ascending order, exact
length-and-byte match; result is (matched, matchedSlot). -/
def validateRfid (d : StoreV1) (uid : List Nat) : Bool × Int :=
  if uid.length = 0 then (false, -1)
  else
    match (List.range 10).find? (fun i =>
      let r := d.rfids.getD i emptyRfidSlot
      decide (r.valid ≠ 0) && (r.len == uid.length) &&
        decide (r.uid.take uid.length = uid)) with
    | some i => (true, (i : Int))
    | none => (false, -1)

/-- The default image as persisted by the recovery path of load(). -/
def savedDefault : StoreV1 := {clearAll with crc32 := imageCrc clearAll}

/-- C2: load() recomputes the CRC32 over the image with the crc32 field
zeroed and compares it to the stored value; when magic, version and crc32 all
match it returns true and leaves the loaded credentials unchanged in memory;
on any mismatch it resets the in-memory store to the default all-invalid
image (all PIN and RFID slots invalid, master cleared), persists that default
image, and returns false. -/
theorem c2_load_integrity (mem ee : StoreV1) :
    (ee.magic = kMagic ∧ ee.version = kVersion ∧ ee.crc32 = imageCrc ee →
      load ⟨mem, ee⟩ = (true, ⟨ee, ee⟩)) ∧
    (¬(ee.magic = kMagic ∧ ee.version = kVersion ∧ ee.crc32 = imageCrc ee) →
      load ⟨mem, ee⟩ = (false, ⟨savedDefault, savedDefault⟩) ∧
      (∀ p ∈ savedDefault.pins, p.valid = 0) ∧
      (∀ r ∈ savedDefault.rfids, r.valid = 0) ∧
      savedDefault.master.valid = 0) := by
  have hsave : (save ⟨clearAll, ee⟩).2 = ⟨savedDefault, savedDefault⟩ := rfl
  constructor
  · rintro ⟨h1, h2, h3⟩
    unfold load
    rw [if_neg (not_not_intro ⟨h1, h2⟩)]
    rw [if_neg (by rw [h3]; exact not_not_intro rfl)]
  · intro hbad
    refine ⟨?_, ?_, ?_, ?_⟩
    · unfold load
      by_cases h1 : ee.magic = kMagic ∧ ee.version = kVersion
      · rw [if_neg (not_not_intro h1)]
        rw [if_pos (by
          intro hc
          exact hbad ⟨h1.1, h1.2, hc.symm⟩)]
        rw [hsave]
      · rw [if_pos h1, hsave]
    · intro p hp
      have hpins : savedDefault.pins = List.replicate 10 emptyPinSlot := rfl
      rw [hpins] at hp
      rw [List.eq_of_mem_replicate hp]
      rfl
    · intro r hr
      have hrfids : savedDefault.rfids = List.replicate 10 emptyRfidSlot := rfl
      rw [hrfids] at hr
      rw [List.eq_of_mem_replicate hr]
      rfl
    · rfl

/-- An EEPROM image with a corrupted magic field. -/
def badMagicImage : StoreV1 :=
  ⟨0, 0, 0, List.replicate 10 emptyPinSlot, List.replicate 10 emptyRfidSlot,
    emptyPinSlot, 0⟩

theorem c2_load_integrity_witness :
    (¬(badMagicImage.magic = kMagic ∧ badMagicImage.version = kVersion ∧
        badMagicImage.crc32 = imageCrc badMagicImage) ∧
      (savedDefault.magic = kMagic ∧ savedDefault.version = kVersion ∧
        savedDefault.crc32 = imageCrc savedDefault)) ∧
    load ⟨badMagicImage, badMagicImage⟩ = (false, ⟨savedDefault, savedDefault⟩) ∧
    load ⟨savedDefault, savedDefault⟩ = (true, ⟨savedDefault, savedDefault⟩) := by
  have hbad : ¬(badMagicImage.magic = kMagic ∧ badMagicImage.version = kVersion ∧
      badMagicImage.crc32 = imageCrc badMagicImage) := by
    intro h
    exact absurd h.1 (by decide)
  have hcrc : savedDefault.crc32 = imageCrc savedDefault := by
    have h1 : ({savedDefault with crc32 := 0} : StoreV1) =
        ({clearAll with crc32 := 0} : StoreV1) := rfl
    show imageCrc clearAll = imageCrc savedDefault
    unfold imageCrc
    rw [h1]
  have hgood : savedDefault.magic = kMagic ∧ savedDefault.version = kVersion ∧
      savedDefault.crc32 = imageCrc savedDefault :=
    ⟨rfl, rfl, hcrc⟩
  exact ⟨⟨hbad, hgood⟩,
    ((c2_load_integrity badMagicImage badMagicImage).2 hbad).1,
    (c2_load_integrity savedDefault savedDefault).1 hgood⟩

end CredentialsStore

namespace LockLogic

inductive LockState where
  | LOCKED
  | UNLOCKED
deriving Repr, DecidableEq

/-- The state snapshot serialized by LockLogic::sendState (door state is a
constant and the legacy duplicate of lastAction is omitted as redundant). -/
structure Snapshot where
  lockState : LockState
  lastMethod : String
  lastSuccess : Bool
  lastActionAtMs : Nat
  lockoutRemainMs : Option Nat
deriving Repr, DecidableEq

/-- The messages LockLogic emits through UartProtocol. -/
inductive Ev where
  | unlock (method : String) (success : Bool) (slot : Option Nat) (uidHex : Option String)
  | stateMsg (snap : Snapshot)
  | cmdResult (cmdId : String) (ok : Bool) (error : Option String)
deriving Repr, DecidableEq

/-- The mutable fields of class LockLogic. -/
structure St where
  lockState : LockState
  unlockUntilMs : Nat
  pinBuf : List Char
  lastInputMs : Nat
  failCount : Nat
  lockoutUntilMs : Nat
  lastMethod : String
  lastSuccess : Bool
  lastActionAtMs : Nat
  display : String
deriving Repr, DecidableEq

/-- The state after LockLogic::begin. -/
def initSt : St := ⟨.LOCKED, 0, [], 0, 0, 0, "", false, 0, "----"⟩

/-- LockLogic::isLockoutActive: deadline nonzero and still in the future under
the wraparound-safe signed comparison. -/
def isLockoutActive (st : St) (now : Nat) : Bool :=
  decide (st.lockoutUntilMs ≠ 0) && decide (toI32 (sub32 now st.lockoutUntilMs) < 0)

/-- LockLogic::sendState payload. -/
def snapshotOf (st : St) (now : Nat) : Snapshot :=
  ⟨st.lockState, st.lastMethod, st.lastSuccess, st.lastActionAtMs,
    if isLockoutActive st now then
      some (if now < st.lockoutUntilMs then st.lockoutUntilMs - now else 0)
    else none⟩

/-- The `uidHex && uidHex[0]` guard of sendUnlockEvent: include the string
only when present and non-empty. -/
def nzStr : Option String → Option String
  | some s => if s = "" then none else some s
  | none => none

def hexDigit (n : Nat) : Char := "0123456789ABCDEF".toList.getD n '0'

/-- RfidRc522::uidToHex with its 24-byte output buffer (at most 11 bytes
rendered). -/
def uidToHex (uid : List Nat) : String :=
  ⟨(uid.take 11).foldl (fun acc b => acc ++ [hexDigit (b / 16 % 16), hexDigit (b % 16)]) []⟩

def clearPinEntry (st : St) : St := {st with pinBuf := []}

/-- LockLogic::unlockSuccess. -/
def unlockSuccess (st : St) (now : Nat) (method : String) (slot : Int)
    (uidHex : Option String) : St × List Ev :=
  let st1 : St :=
    { st with
      failCount := 0,
      lockState := .UNLOCKED,
      unlockUntilMs := (now + 5000) % M32,
      lastMethod := method,
      lastSuccess := true,
      lastActionAtMs := now % M32,
      display := "OPEN" }
  (st1, [.unlock method true (if 0 ≤ slot then some slot.toNat else none) (nzStr uidHex),
    .stateMsg (snapshotOf st1 now)])

/-- LockLogic::unlockFail: count the failure (uint8 increment); on the 5th
consecutive failure reset the counter and arm the 30000 ms lockout. -/
def unlockFail (st : St) (now : Nat) (method : String) (uidHex : Option String) :
    St × List Ev :=
  let fc := (st.failCount + 1) % 256
  let st1 : St :=
    { st with
      failCount := fc,
      lastMethod := method,
      lastSuccess := false,
      lastActionAtMs := now % M32 }
  let st2 : St :=
    if 5 ≤ fc then
      { st1 with
        failCount := 0,
        lockoutUntilMs := (now + 30000) % M32,
        display := "LOCK" }
    else {st1 with display := "FAIL"}
  (st2, [.unlock method false none (nzStr uidHex), .stateMsg (snapshotOf st2 now)])

/-- LockLogic::attemptPin. -/
def attemptPin (st : St) (store : CredentialsStore.StoreV1) (now : Nat) : St × List Ev :=
  if st.pinBuf.length = 0 then (st, [])
  else
    let r := CredentialsStore.validatePin store st.pinBuf
    let st1 := clearPinEntry st
    if r.1 then unlockSuccess st1 now "PIN" (if r.2.2 then -1 else r.2.1) none
    else unlockFail st1 now "PIN" none

/-- LockLogic::onKey. -/
def onKey (st : St) (store : CredentialsStore.StoreV1) (now : Nat) (key : Char) :
    St × List Ev :=
  if key = Char.ofNat 0 then (st, [])
  else if isLockoutActive st now then (st, [])
  else if '0' ≤ key ∧ key ≤ '9' then
    (if st.pinBuf.length < 8 then
      { st with
        pinBuf := st.pinBuf ++ [key],
        lastInputMs := now % M32,
        display := "****" }
    else st, [])
  else if key = '*' then ({st with pinBuf := [], display := "----"}, [])
  else if key = '#' then attemptPin st store now
  else (st, [])

/-- LockLogic::onRfidUid. -/
def onRfidUid (st : St) (store : CredentialsStore.StoreV1) (now : Nat)
    (uid : List Nat) : St × List Ev :=
  if uid.length = 0 then (st, [])
  else if isLockoutActive st now then (st, [])
  else
    let r := CredentialsStore.validateRfid store uid
    let hex := uidToHex uid
    if r.1 then unlockSuccess st now "RFID" r.2 (some hex)
    else unlockFail st now "RFID" (some hex)

/-- LockLogic::tick: PIN-entry idle timeout, lockout display, auto relock. -/
def tick (st : St) (now : Nat) : St × List Ev :=
  let st1 :=
    if 0 < st.pinBuf.length ∧ 6000 < toI32 (sub32 now st.lastInputMs) then
      let stc := clearPinEntry st
      if isLockoutActive stc now = false ∧ stc.lockState = .LOCKED then
        {stc with display := "----"}
      else stc
    else st
  let st2 := if isLockoutActive st1 now then {st1 with display := "LOCK"} else st1
  if st2.lockState = .UNLOCKED ∧ 0 < toI32 (sub32 now st2.unlockUntilMs) then
    let st3 : St :=
      { st2 with
        lockState := .LOCKED,
        display := "----" }
    (st3, [.stateMsg (snapshotOf st3 now)])
  else (st2, [])

/-- The argument object of an administrative command; absent fields are none
(the `args[...] | default` fallbacks are applied in runCmd). -/
structure Args where
  slot : Option Int
  pin : Option String
  uidHex : Option String
deriving Repr, DecidableEq

def isHexDigit (c : Char) : Bool :=
  decide ('0' ≤ c ∧ c ≤ '9') || decide ('a' ≤ c ∧ c ≤ 'f') || decide ('A' ≤ c ∧ c ≤ 'F')

def hexVal (c : Char) : Nat :=
  if '0' ≤ c ∧ c ≤ '9' then c.toNat - '0'.toNat
  else if 'a' ≤ c ∧ c ≤ 'f' then c.toNat - 'a'.toNat + 10
  else if 'A' ≤ c ∧ c ≤ 'F' then c.toNat - 'A'.toNat + 10
  else 0

/-- Modelled from the spec: the uidHex argument is an even-length hex string
parsed two characters at a time with the C library strtol (not part of src/);
a chunk parses when it is two hex digits, or a space or sign followed by one
hex digit (then the C code's `v < 0` check rejects negatives); anything else
leaves a non-terminator behind and is rejected. -/
def strtolPair (c1 c2 : Char) : Option Int :=
  if isHexDigit c1 ∧ isHexDigit c2 then some (16 * hexVal c1 + hexVal c2)
  else if (c1 = ' ' ∨ c1 = '+') ∧ isHexDigit c2 then some (hexVal c2)
  else if c1 = '-' ∧ isHexDigit c2 then some (-(hexVal c2 : Int))
  else none

/-- The hex-parsing loop of the lock.add_rfid handler: consume pairs while
fewer than 10 bytes are collected; a bad pair or out-of-range value resets the
collected length to 0 and stops (reported as none). -/
def parseUidLoop : List Char → List Nat → Option (List Nat)
  | c1 :: c2 :: rest, acc =>
    if acc.length < 10 then
      match strtolPair c1 c2 with
      | some v => if v < 0 ∨ 255 < v then none else parseUidLoop rest (acc ++ [v.toNat])
      | none => none
    else some acc
  | _, acc => some acc

/-- The command dispatch chain of LockLogic::onCommand: validate arguments,
delegate to CredentialsStore, and produce (ok, error-code-for-the-result,
updated store). -/
def runCmd (s : CredentialsStore.State) (cmd : String) (args : Args) :
    Bool × Option String × CredentialsStore.State :=
  if cmd = "lock.add_pin" then
    let slot := args.slot.getD (-1)
    let pin := args.pin.getD ""
    if slot < 0 ∨ 9 < slot then (false, some "bad_slot", s)
    else if pin = "" then (false, some "bad_pin", s)
    else
      let r1 := CredentialsStore.setPin s slot.toNat pin.data
      if r1.1 then
        let r2 := CredentialsStore.save r1.2
        if r2.1 then (true, none, r2.2) else (false, some "store_fail", r2.2)
      else (false, some "store_fail", r1.2)
  else if cmd = "lock.delete_pin" then
    let slot := args.slot.getD (-1)
    if slot < 0 ∨ 9 < slot then (false, some "bad_slot", s)
    else
      let r1 := CredentialsStore.deletePin s slot.toNat
      if r1.1 then
        let r2 := CredentialsStore.save r1.2
        if r2.1 then (true, none, r2.2) else (false, some "store_fail", r2.2)
      else (false, some "store_fail", r1.2)
  else if cmd = "lock.add_rfid" then
    let slot := args.slot.getD (-1)
    let uidHex := args.uidHex.getD ""
    if slot < 0 ∨ 9 < slot then (false, some "bad_slot", s)
    else if uidHex = "" then (false, some "bad_uid", s)
    else if uidHex.length % 2 ≠ 0 then (false, some "bad_uid", s)
    else
      match parseUidLoop uidHex.data [] with
      | none => (false, some "bad_uid", s)
      | some uid =>
        if uid.length = 0 then (false, some "bad_uid", s)
        else
          let r1 := CredentialsStore.setRfid s slot.toNat uid
          if r1.1 then
            let r2 := CredentialsStore.save r1.2
            if r2.1 then (true, none, r2.2) else (false, some "store_fail", r2.2)
          else (false, some "store_fail", r1.2)
  else if cmd = "lock.delete_rfid" then
    let slot := args.slot.getD (-1)
    if slot < 0 ∨ 9 < slot then (false, some "bad_slot", s)
    else
      let r1 := CredentialsStore.deleteRfid s slot.toNat
      if r1.1 then
        let r2 := CredentialsStore.save r1.2
        if r2.1 then (true, none, r2.2) else (false, some "store_fail", r2.2)
      else (false, some "store_fail", r1.2)
  else if cmd = "lock.set_master" then
    let pin := args.pin.getD ""
    let r1 := CredentialsStore.setMaster s pin.data
    if r1.1 then
      let r2 := CredentialsStore.save r1.2
      if r2.1 then (true, none, r2.2) else (false, some "store_fail", r2.2)
    else (false, some "store_fail", r1.2)
  else (false, some "unknown_cmd", s)

/-- LockLogic::onCommand: commands with a null or empty cmdId are dropped at
the top; every processed command ends with sendCmdResult followed by
sendState. -/
def onCommand (st : St) (s : CredentialsStore.State) (cmd cmdId : String)
    (args : Args) (now : Nat) : St × CredentialsStore.State × List Ev :=
  if cmdId = "" then (st, s, [])
  else
    let r := runCmd s cmd args
    (st, r.2.2, [.cmdResult cmdId r.1 r.2.1, .stateMsg (snapshotOf st now)])

/-- C1: exactly 5 consecutive validation failures (PIN or RFID, in any
combination -- both paths funnel into unlockFail) arm the lockout: the 5th
failure sets the deadline to now + 30000 ms (mod 2^32) and resets the counter
to 0, while earlier failures only increment the counter and leave the lockout
deadline untouched; while the lockout deadline is in the future (the
wraparound-safe comparison of isLockoutActive, with deadline 0 meaning
inactive as the spec defines), every keypad and RFID input event returns the
state unchanged and emits no event, so the lockout window is neither extended
nor shortened; and any successful validation resets the failure counter
to 0. -/
theorem c1_lockout_policy (st : St) (store : CredentialsStore.StoreV1) (now : Nat)
    (key : Char) (uid : List Nat) (method : String) (uidHex : Option String)
    (slot : Int) :
    (st.failCount = 4 →
      (unlockFail st now method uidHex).1.failCount = 0 ∧
      (unlockFail st now method uidHex).1.lockoutUntilMs = (now + 30000) % M32) ∧
    (st.failCount + 1 < 5 →
      (unlockFail st now method uidHex).1.failCount = st.failCount + 1 ∧
      (unlockFail st now method uidHex).1.lockoutUntilMs = st.lockoutUntilMs) ∧
    (isLockoutActive st now = true →
      onKey st store now key = (st, []) ∧ onRfidUid st store now uid = (st, [])) ∧
    (unlockSuccess st now method slot uidHex).1.failCount = 0 := by
  refine ⟨?_, ?_, ?_, ?_⟩
  · intro h
    simp [unlockFail, h]
  · intro h
    have hm : (st.failCount + 1) % 256 = st.failCount + 1 := Nat.mod_eq_of_lt (by omega)
    have h5 : ¬ 5 ≤ st.failCount + 1 := by omega
    simp [unlockFail, hm, h5]
  · intro h
    constructor
    · simp [onKey, h]
    · simp [onRfidUid, h]
  · rfl

theorem c1_lockout_policy_witness :
    (({initSt with failCount := 4} : St).failCount = 4 ∧
      initSt.failCount + 1 < 5 ∧
      isLockoutActive {initSt with lockoutUntilMs := 40000} 500 = true) ∧
    ((unlockFail {initSt with failCount := 4} 1000 "PIN" none).1.failCount = 0 ∧
      (unlockFail {initSt with failCount := 4} 1000 "PIN" none).1.lockoutUntilMs =
        (1000 + 30000) % M32) ∧
    ((unlockFail initSt 1000 "PIN" none).1.failCount = initSt.failCount + 1 ∧
      (unlockFail initSt 1000 "PIN" none).1.lockoutUntilMs = initSt.lockoutUntilMs) ∧
    (onKey {initSt with lockoutUntilMs := 40000} CredentialsStore.clearAll 500 '5' =
        ({initSt with lockoutUntilMs := 40000}, []) ∧
      onRfidUid {initSt with lockoutUntilMs := 40000} CredentialsStore.clearAll 500
          [1, 2] =
        ({initSt with lockoutUntilMs := 40000}, [])) ∧
    (unlockSuccess initSt 1000 "PIN" 0 none).1.failCount = 0 := by
  refine ⟨⟨rfl, by decide, by decide⟩, ?_, ?_, ?_, ?_⟩
  · exact (c1_lockout_policy {initSt with failCount := 4} CredentialsStore.clearAll
      1000 '5' [1, 2] "PIN" none 0).1 rfl
  · exact (c1_lockout_policy initSt CredentialsStore.clearAll
      1000 '5' [1, 2] "PIN" none 0).2.1 (by decide)
  · exact (c1_lockout_policy {initSt with lockoutUntilMs := 40000}
      CredentialsStore.clearAll 500 '5' [1, 2] "PIN" none 0).2.2.1 (by decide)
  · exact (c1_lockout_policy initSt CredentialsStore.clearAll
      1000 '5' [1, 2] "PIN" none 0).2.2.2

/-- The state after entering the digits 1 and 2 at time 1000 ms on a fresh
lock (used by the C6 timing scenarios). -/
def twoDigitsSt : St :=
  (onKey (onKey initSt CredentialsStore.clearAll 1000 '1').1
    CredentialsStore.clearAll 1000 '2').1

/-- C6: on every tick, a non-empty PIN buffer is cleared exactly when more
than 6000 ms have elapsed since the last digit (wraparound-safe signed
comparison), the buffer is untouched at 6000 ms or less, and the failure
counter is never changed by tick; concretely, 2 digits followed by a 5999 ms
wait and a 3rd digit leave a 3-digit buffer, 2 digits followed by a 6001 ms
wait leave an empty buffer with the failure counter unchanged, and the
comparison survives counter wraparound (last input at 2^32 - 1000, tick at
5001). -/
theorem c6_pin_entry_timeout (st : St) (now : Nat) :
    ((tick st now).1.failCount = st.failCount) ∧
    (st.pinBuf ≠ [] → 6000 < toI32 (sub32 now st.lastInputMs) →
      (tick st now).1.pinBuf = []) ∧
    (¬ 6000 < toI32 (sub32 now st.lastInputMs) → (tick st now).1.pinBuf = st.pinBuf) ∧
    ((onKey (tick twoDigitsSt 6999).1 CredentialsStore.clearAll 6999 '3').1.pinBuf =
      ['1', '2', '3'] ∧
     (tick twoDigitsSt 7001).1.pinBuf = [] ∧
     (tick twoDigitsSt 7001).1.failCount = twoDigitsSt.failCount ∧
     (tick {initSt with pinBuf := ['9', '9'], lastInputMs := M32 - 1000} 5001).1.pinBuf
       = []) := by
  refine ⟨?_, ?_, ?_, by decide⟩
  · simp only [tick]
    split_ifs <;> rfl
  · intro hne h6
    have hplen : 0 < st.pinBuf.length := List.length_pos.mpr hne
    simp only [tick]
    split_ifs <;>
      first
      | rfl
      | exact absurd ⟨hplen, h6⟩
          ‹¬(0 < st.pinBuf.length ∧ 6000 < toI32 (sub32 now st.lastInputMs))›
  · intro h6
    simp only [tick]
    split_ifs <;>
      first
      | rfl
      | exact absurd
          ‹0 < st.pinBuf.length ∧ 6000 < toI32 (sub32 now st.lastInputMs)›.2 h6

theorem c6_pin_entry_timeout_witness :
    (({initSt with pinBuf := ['1'], lastInputMs := 0} : St).pinBuf ≠ [] ∧
      6000 < toI32 (sub32 6001 0) ∧ ¬ 6000 < toI32 (sub32 5000 0)) ∧
    (tick {initSt with pinBuf := ['1'], lastInputMs := 0} 6001).1.pinBuf = [] ∧
    (tick {initSt with pinBuf := ['1'], lastInputMs := 0} 5000).1.pinBuf =
      ({initSt with pinBuf := ['1'], lastInputMs := 0} : St).pinBuf ∧
    (tick {initSt with pinBuf := ['1'], lastInputMs := 0} 6001).1.failCount =
      ({initSt with pinBuf := ['1'], lastInputMs := 0} : St).failCount := by
  refine ⟨⟨by decide, by decide, by decide⟩, ?_, ?_, ?_⟩
  · exact (c6_pin_entry_timeout {initSt with pinBuf := ['1'], lastInputMs := 0}
      6001).2.1 (by decide) (by decide)
  · exact (c6_pin_entry_timeout {initSt with pinBuf := ['1'], lastInputMs := 0}
      5000).2.2.1 (by decide)
  · exact (c6_pin_entry_timeout {initSt with pinBuf := ['1'], lastInputMs := 0}
      6001).1

/-- A fresh store state (empty credentials, as after clearAll). -/
def freshStore : CredentialsStore.State :=
  ⟨CredentialsStore.clearAll, CredentialsStore.clearAll⟩

/-- C4 as stated is false: lock.add_pin with slot 0 and the malformed
non-empty pin "12A45" is rejected without mutating the store, but the emitted
cmd_result carries error code store_fail, not bad_pin. -/
theorem c4_counterexample :
    (onCommand initSt freshStore "lock.add_pin" "x1"
        ⟨some 0, some "12A45", none⟩ 0).2.2 =
      [.cmdResult "x1" false (some "store_fail"), .stateMsg (snapshotOf initSt 0)] ∧
    (onCommand initSt freshStore "lock.add_pin" "x1"
        ⟨some 0, some "12A45", none⟩ 0).2.1 = freshStore ∧
    some "store_fail" ≠ some "bad_pin" := by decide

/-- C4 amended: for every lock.add_pin command with slot in 0..9 and a
non-empty pin that is not 1..8 decimal digits, the command is rejected before
any mutation of the credential store (the returned store equals the input
store), but the emitted cmd_result has ok false with error code store_fail;
the code reports bad_pin only for an empty pin argument. -/
theorem c4_badpin_reported_as_store_fail (s : CredentialsStore.State) (st : St)
    (now : Nat) (cmdId : String) (slot : Int) (pin : String) (uidHex : Option String)
    (hc : cmdId ≠ "") (h0 : 0 ≤ slot) (h9 : slot ≤ 9) (hne : ¬ pin = "")
    (hbad : CredentialsStore.normalizePin pin.data = none) :
    onCommand st s "lock.add_pin" cmdId ⟨some slot, some pin, uidHex⟩ now =
      (st, s, [.cmdResult cmdId false (some "store_fail"),
        .stateMsg (snapshotOf st now)]) := by
  have h1 : ¬(slot < 0 ∨ 9 < slot) := by omega
  have h2 : slot.toNat < 10 := by omega
  unfold onCommand
  rw [if_neg hc]
  unfold runCmd
  rw [if_pos rfl]
  simp only [Option.getD]
  rw [if_neg h1, if_neg hne]
  unfold CredentialsStore.setPin
  rw [if_neg (not_not_intro h2), hbad]
  simp

theorem c4_badpin_reported_as_store_fail_witness :
    ("x1" ≠ "" ∧ (0 : Int) ≤ 0 ∧ (0 : Int) ≤ 9 ∧ ¬ "999999999" = "" ∧
      CredentialsStore.normalizePin "999999999".data = none) ∧
    onCommand initSt freshStore "lock.add_pin" "x1"
        ⟨some 0, some "999999999", none⟩ 5 =
      (initSt, freshStore, [.cmdResult "x1" false (some "store_fail"),
        .stateMsg (snapshotOf initSt 5)]) := by
  refine ⟨⟨by decide, by decide, by decide, by decide, by decide⟩, ?_⟩
  exact c4_badpin_reported_as_store_fail freshStore initSt 5 "x1" 0 "999999999" none
    (by decide) (by decide) (by decide) (by decide) (by decide)

/-- C5 as stated is false: a command dispatched with an empty cmdId (the
default when the field is absent) is dropped by the guard at the top of
onCommand -- no cmd_result is emitted and no state snapshot is broadcast. -/
theorem c5_counterexample :
    (onCommand initSt freshStore "lock.set_master" "" ⟨none, none, none⟩ 0).2.2 =
      [] ∧
    (onCommand initSt freshStore "lock.set_master" "" ⟨none, none, none⟩ 0).2.1 =
      freshStore := by
  exact ⟨rfl, rfl⟩

/-- C5 amended: every administrative command whose cmdId is non-empty --
whatever the command name and arguments, valid or not -- emits exactly one
cmd_result event carrying its success or failure, followed by a fresh state
snapshot; a command whose cmdId is empty (or absent, since the line protocol
defaults it to empty) is silently dropped with no cmd_result and no state
broadcast. -/
theorem c5_cmd_result_then_state (st : St) (s : CredentialsStore.State)
    (cmd cmdId : String) (args : Args) (now : Nat) (h : cmdId ≠ "") :
    ∃ ok err, (onCommand st s cmd cmdId args now).2.2 =
      [.cmdResult cmdId ok err, .stateMsg (snapshotOf st now)] := by
  unfold onCommand
  rw [if_neg h]
  exact ⟨_, _, rfl⟩

theorem c5_cmd_result_then_state_witness :
    ("x2" ≠ "") ∧
    ∃ ok err, (onCommand initSt freshStore "lock.frobnicate" "x2"
        ⟨none, none, none⟩ 0).2.2 =
      [.cmdResult "x2" ok err, .stateMsg (snapshotOf initSt 0)] :=
  ⟨by decide, c5_cmd_result_then_state initSt freshStore "lock.frobnicate" "x2"
    ⟨none, none, none⟩ 0 (by decide)⟩

end LockLogic

namespace UartProtocol

def kMaxLine : Nat := 512

/-- One stream byte through the line accumulator of UartProtocol::tick:
carriage returns are skipped, a newline dispatches a non-empty buffer to
handleLine and clears it, a byte is appended while fewer than kMaxLine - 1
characters are buffered, and on overflow the partial line is dropped and the
buffer reset. -/
def tickByte (buf : List Char) (c : Nat) : List Char × Option (List Char) :=
  if c % 256 = 13 then (buf, none)
  else if c % 256 = 10 then
    (if 0 < buf.length then ([], some buf) else ([], none))
  else if buf.length < kMaxLine - 1 then (buf ++ [Char.ofNat (c % 256)], none)
  else ([], none)

/-- Drive a whole byte stream through tick, collecting every line handed to
handleLine. -/
def tickBytes (buf : List Char) (bs : List Nat) : List Char × List (List Char) :=
  match bs with
  | [] => (buf, [])
  | b :: rest =>
    let r1 := tickByte buf b
    let r2 := tickBytes r1.1 rest
    (r2.1, match r1.2 with | some l => l :: r2.2 | none => r2.2)

/-- Scan the remainder of a string literal up to the closing quote. -/
def strLitAux : List Char → List Char → Option (String × List Char)
  | acc, c :: rest =>
    if c = '"' then some (String.mk acc.reverse, rest)
    else strLitAux (c :: acc) rest
  | _, [] => none

def parseStrLit : List Char → Option (String × List Char)
  | c :: rest => if c = '"' then strLitAux [] rest else none
  | [] => none

/-- Key-value pairs of a flat JSON object body, up to the closing brace. -/
def parsePairsAux : Nat → List Char → Option (List (String × String))
  | fuel + 1, l =>
    match parseStrLit l with
    | none => none
    | some (k, rest) =>
      match rest with
      | ':' :: rest2 =>
        match parseStrLit rest2 with
        | none => none
        | some (v, rest3) =>
          match rest3 with
          | ',' :: rest4 => (parsePairsAux fuel rest4).map (fun kvs => (k, v) :: kvs)
          | [cb] => if cb = Char.ofNat 125 then some [(k, v)] else none
          | _ => none
      | _ => none
  | 0, _ => none

/-- Modelled from the spec: the JSON parsing of UartProtocol::handleLine is
done by the ArduinoJson library, which is not part of src/; per the spec a
line parses to an object whose recognized fields are cmd (string, required --
absence means the line is silently ignored) and cmdId (string, defaulting to
empty).  Modelled for flat objects of string-valued fields without spaces or
escape sequences, which covers the lines considered here. -/
def parseFlatObj (l : List Char) : Option (List (String × String)) :=
  match l with
  | c :: rest =>
    if c = Char.ofNat 123 then
      if rest = [Char.ofNat 125] then some []
      else parsePairsAux rest.length rest
    else none
  | [] => none

/-- Modelled from the spec: the (cmd, cmdId) pair handed to the registered
command handler for a dispatched line, or none when the line is ignored. -/
def lineCmd (l : List Char) : Option (String × String) :=
  match parseFlatObj l with
  | none => none
  | some kvs =>
    match kvs.lookup "cmd" with
    | none => none
    | some c => some (c, (kvs.lookup "cmdId").getD "")

/-- All command-handler invocations produced by a byte stream fed to a fresh
protocol instance. -/
def handlerCalls (bs : List Nat) : List (String × String) :=
  ((tickBytes [] bs).2).filterMap lineCmd

/-- The last 11 bytes of the overlong line: a valid command object. -/
def overlongTail : List Char :=
  [Char.ofNat 123, '"', 'c', 'm', 'd', '"', ':', '"', 'a', '"', Char.ofNat 125]

/-- A single 523-byte line (512 filler bytes, then the command object),
newline-terminated. -/
def overlongStream : List Nat :=
  List.replicate 512 97 ++ overlongTail.map Char.toNat ++ [10]

/-- C9 as stated is false: the 523-byte line of overlongStream exceeds the
512-byte line buffer, yet its tail beyond the overflow point is accumulated
as a fresh line and invokes the registered command handler with cmd "a". -/
theorem c9_counterexample :
    handlerCalls overlongStream = [("a", "")] ∧
    handlerCalls overlongStream ≠ [] ∧
    512 < (List.replicate 512 97 ++ overlongTail.map Char.toNat).length ∧
    (10 : Nat) ∉ (List.replicate 512 97 ++ overlongTail.map Char.toNat) := by
  decide

theorem tickBytes_lines_bounded (bs : List Nat) :
    ∀ buf : List Char, buf.length ≤ 511 →
      ∀ line ∈ (tickBytes buf bs).2, line.length ≤ 511 := by
  induction bs with
  | nil =>
    intro buf hb line hl
    simp [tickBytes] at hl
  | cons b rest ih =>
    intro buf hb line hl
    simp only [tickBytes] at hl
    unfold tickByte at hl
    split_ifs at hl with h13 h10 hpos hlen
    · exact ih buf hb line (by simpa using hl)
    · have hl2 : line = buf ∨ line ∈ (tickBytes [] rest).2 := by simpa using hl
      rcases hl2 with h | h
      · subst h; exact hb
      · exact ih [] (by simp) line h
    · exact ih [] (by simp) line (by simpa using hl)
    · refine ih (buf ++ [Char.ofNat (b % 256)]) ?_ line (by simpa using hl)
      simp only [kMaxLine] at hlen
      simp
      omega
    · exact ih [] (by simp) line (by simpa using hl)

/-- C9 amended: a line longer than the 512-byte buffer is never dispatched in
full -- every line handed to handleLine is at most 511 bytes, so the overlong
prefix up to the overflow point is discarded -- but the bytes after the
overflow point accumulate as a fresh line which is dispatched at the newline
and can invoke the registered command handler, as the 523-byte line of
overlongStream demonstrates. -/
theorem c9_overflow_amended :
    (∀ bs : List Nat, ∀ line ∈ (tickBytes ([] : List Char) bs).2,
      line.length ≤ 511) ∧
    handlerCalls overlongStream = [("a", "")] := by
  constructor
  · intro bs line hl
    exact tickBytes_lines_bounded bs [] (by simp) line hl
  · decide

theorem c9_overflow_amended_witness :
    (['a'] ∈ (tickBytes ([] : List Char) [97, 10]).2) ∧
    ([('a' : Char)] : List Char).length ≤ 511 :=
  ⟨by decide, c9_overflow_amended.1 [97, 10] ['a'] (by decide)⟩

end UartProtocol

end LockCore
